import Mathlib

/-!
Verification of the constraint reconciliation controller
(`pkg/controller/constraint/constraint_controller.go`).

The embedding models one reconciliation pass (`ReconcileConstraint.Reconcile`)
over a single constraint identity, together with the constraints cache
(`ConstraintsCache`) and its aggregation routine (`reportTotalConstraints`).
External collaborators are modelled as follows:

* the Resource Store Gateway, Policy Engine Gateway and Processing Gate are
  driven by an environment `Env` of injected responses, one per call site
  reachable in a pass;
* the policy engine's stored rule for the reconciled identity is threaded
  explicitly as an `Option Resource` (the object `AddConstraint` stored, with
  its status already stripped);
* a store `Update` that succeeds replaces the in-memory object by the store's
  response, modelled as the sent object whose status sub-object becomes the
  server-side status carried by the environment (this is the hazard the
  controller's explicit save-and-restore of `status` guards against);
* counters in `Effects` record how many calls of each kind the pass issued and
  whether the deferred metrics report fired.
-/

deriving instance DecidableEq for Except

/-- Status taxonomy of the metrics package (`metrics.Status` with
`metrics.ActiveStatus` and `metrics.ErrorStatus`). Modelled from the spec:
the metrics package is outside the embedded source file; the spec's Tag has
"status ∈ \x7bactive, error\x7d". -/
inductive Status where
  | active
  | error
deriving DecidableEq

/-- Modelled from the spec: `metrics.AllStatuses`, the known statuses iterated
by the aggregation routine. -/
def AllStatuses : List Status := [Status.active, Status.error]

/-- Modelled from the spec: `util.KnownEnforcementActions` (the util package is
outside the embedded source file), the known enforcement actions iterated by
the aggregation routine; enforcement actions are strings. -/
def KnownEnforcementActions : List String := ["deny", "dryrun"]

/-- Per-pod status sub-object manipulated through `csutil.GetHAStatus` and
`csutil.SetHAStatus`: an `enforced` flag and a list of error messages
(`csutil.Error` values, kept as their `Message` strings). -/
structure HAStatus where
  enforced : Bool
  errors : List String
deriving DecidableEq

/-- Constraint resource as fetched from the store (`unstructured.Unstructured`
restricted to the fields the controller reads). `deletionRequested` is the
negation of `GetDeletionTimestamp().IsZero()`; `spec` abstracts the policy
content; `eaResult` embeds the result of `util.GetEnforcementAction`, a pure
function of the resource's spec defined outside the embedded file, as a field
determined by the resource; `status` is the status sub-object (`none` when the
resource carries no status field). -/
structure Resource where
  kind : String
  name : String
  deletionRequested : Bool
  finalizers : List String
  spec : String
  eaResult : Except String String
  status : Option HAStatus
deriving DecidableEq

/-- Result of `util.GetEnforcementAction(instance.Object)` (line 159): the
extraction is a pure function of the resource, embedded as its `eaResult`
field. -/
def GetEnforcementAction (r : Resource) : Except String String := r.eaResult

/-- Line 50: the controller's finalizer token. -/
def finalizerName : String := "finalizers.gatekeeper.sh/constraint"

/-- Lines 283–290. -/
def containsString (s : String) (items : List String) : Bool :=
  items.any fun item => item == s

/-- Lines 292–300: keeps, in order, the items different from `s`. -/
def removeString (s : String) (items : List String) : List String :=
  items.filter fun item => item != s

/-- Lines 279–281. -/
def HasFinalizer (r : Resource) : Bool := containsString finalizerName r.finalizers

/-- Lines 275–277. -/
def RemoveFinalizer (r : Resource) : Resource :=
  { r with finalizers := removeString finalizerName r.finalizers }

/-- Line 158: `strings.Join([]string{kind, name}, "/")`. -/
def constraintKey (r : Resource) : String := r.kind ++ "/" ++ r.name

/-- `unstructured.RemoveNestedField(obj.Object, "status")` on a deep copy:
the same resource with the status sub-object removed. -/
def stripStatus (r : Resource) : Resource := { r with status := none }

/-- Modelled from the spec: `constraints.SemanticEqual` (defined in the OPA
frameworks library, outside the embedded source file) — "a semantic-equality
check that ignores status-only differences". -/
def SemanticEqual (a b : Resource) : Bool := decide (stripStatus a = stripStatus b)

/-- Modelled from the spec: `csutil.GetHAStatus` (outside the embedded source
file) reads the resource's status sub-object, defaulting to an empty one. -/
def GetHAStatus (r : Resource) : HAStatus := r.status.getD ⟨false, []⟩

/-- Modelled from the spec: `csutil.SetHAStatus` (outside the embedded source
file) writes the status sub-object back into the resource. -/
def SetHAStatus (r : Resource) (st : HAStatus) : Resource := { r with status := some st }

/-- Lines 186–193 prelude of the sync branch: fetch the status and clear the
prior error list (`status.Errors = nil` followed by `SetHAStatus`). -/
def clearErrors (r : Resource) : Resource :=
  SetHAStatus r { GetHAStatus r with errors := [] }

/-- Lines 63–66: the `tags` value stored per constraint key. -/
structure tags where
  enforcementAction : String
  status : Status
deriving DecidableEq

/-- Lines 58–61: the cache mapping constraint keys to `tags`. A Go map is
modelled as an association list; entry order is immaterial to lookups and
counts. -/
abbrev ConstraintsCache := List (String × tags)

/-- Lines 308–316: map upsert `c.cache[constraintKey] = tags\x7b...\x7d`. -/
def addConstraintKey (c : ConstraintsCache) (k : String) (t : tags) : ConstraintsCache :=
  (k, t) :: c.filter fun kv => !decide (kv.1 = k)

/-- Lines 318–323: `delete(c.cache, constraintKey)`. -/
def deleteConstraintKey (c : ConstraintsCache) (k : String) : ConstraintsCache :=
  c.filter fun kv => !decide (kv.1 = k)

/-- Map lookup on the association-list model of the cache. -/
def cacheLookup (c : ConstraintsCache) (k : String) : Option tags :=
  (c.find? fun kv => decide (kv.1 = k)).map fun kv => kv.2

/-- One `totals[v]++` step of the aggregation loop (lines 330–333). -/
def bumpTag (m : tags → Nat) (t : tags) : tags → Nat :=
  fun u => if u = t then m u + 1 else m u

/-- Lines 329–333: the `totals` map built by iterating the cache entries,
starting from the empty tally. -/
def constraintTotals (c : ConstraintsCache) : tags → Nat :=
  c.foldl (fun m kv => bumpTag m kv.2) fun _ => 0

/-- Lines 325–350, `ConstraintsCache.reportTotalConstraints`: under a read
lock, tally the entries by tag, then call `reporter.reportConstraints` once for
every known enforcement action × status cell with that cell's total (zero when
the tally has no entry). Reporter errors are only logged, so every cell is
reported regardless; the routine only reads the cache, so it is embedded as a
pure function returning the list of reported (tag, count) pairs in call
order. -/
def reportTotalConstraints (c : ConstraintsCache) : List (tags × Int) :=
  KnownEnforcementActions.flatMap fun ea =>
    AllStatuses.map fun s => (⟨ea, s⟩, (constraintTotals c ⟨ea, s⟩ : Int))

/-- Outcome of the store `Get` at line 147: not found (benign), another store
error, or the fetched resource. -/
inductive StoreGet where
  | notFound
  | errOther (m : String)
  | found (r : Resource)
deriving DecidableEq

/-- Outcome of `opa.RemoveConstraint` at line 228: removed, an
`opa.UnrecognizedConstraintError`, or any other engine failure. -/
inductive RemoveOutcome where
  | removed
  | unrecognized
  | failed (m : String)
deriving DecidableEq

/-- Injected responses of the external collaborators for the call sites one
pass can reach: the processing gate (`cs.Enter`), the store `Get`, the store
`Update` (at most one per pass: the finalizer attach at line 175 or the
finalizer removal at line 236; success carries the server-side status of the
response object), whether `opa.GetConstraint` fails, whether
`opa.AddConstraint` fails (and with which message), whether `Status().Update`
fails, and the `opa.RemoveConstraint` outcome. -/
structure Env where
  enabled : Bool
  store : StoreGet
  updateResult : Except Unit (Option HAStatus)
  getErr : Bool
  addErr : Option String
  statusUpdateErr : Bool
  removeOutcome : RemoveOutcome
deriving DecidableEq

/-- Counters of external calls issued by one pass, plus whether the deferred
metrics report (lines 164–169) fired. -/
structure Effects where
  engineGets : Nat
  engineAdds : Nat
  engineRemoves : Nat
  storeUpdates : Nat
  statusUpdates : Nat
  metricsReported : Bool
deriving DecidableEq

def noFx : Effects := ⟨0, 0, 0, 0, 0, false⟩

/-- `(reconcile.Result, error)` pair returned by a pass. -/
structure RResult where
  requeue : Bool
  err : Option String
deriving DecidableEq

/-- Everything observable after one pass: the returned result, the final
in-memory resource (`none` when the pass ended before or at the fetch), the
cache, the engine's stored rule for this identity, and the effect counters. -/
structure Outcome where
  result : RResult
  inst : Option Resource
  cache : ConstraintsCache
  engine : Option Resource
  fx : Effects
deriving DecidableEq

/-- Lines 267–273, `ReconcileConstraint.cacheConstraint`: deep-copy the
resource, remove its status field, and pass the copy to `opa.AddConstraint`;
on success the engine stores exactly that object, which the embedding
returns. -/
def cacheConstraint (addErr : Option String) (inst : Resource) : Except String Resource :=
  let obj := stripStatus inst
  match addErr with
  | some m => Except.error m
  | none => Except.ok obj

/-- Line 174: append the finalizer to the resource's finalizer list. -/
def withFinalizer (r : Resource) : Resource :=
  { r with finalizers := r.finalizers ++ [finalizerName] }

/-- Lines 172–184: save the status sub-object (`NestedFieldCopy`), append the
finalizer, call `r.Update`; `none` models the update failing (the caller
returns requeue). On success the in-memory object is the store's response —
the sent object with the server-side status `srv` — after which the saved
status is written back whenever it was present (`if status != nil`). -/
def attachFinalizer (upd : Except Unit (Option HAStatus)) (inst : Resource) : Option Resource :=
  let saved := inst.status
  let inst1 := withFinalizer inst
  match upd with
  | Except.error _ => none
  | Except.ok srv => some { inst1 with status := if saved.isSome then saved else srv }

/-- Line 194 guard: `c, err := opa.GetConstraint(...); err != nil ||
!constraints.SemanticEqual(instance, c)`. `GetConstraint` fails when the
environment injects a failure or when the engine holds no rule for this
identity; on a fetch failure the comparison is short-circuited and the write
proceeds. -/
def engineNeedsAdd (getFail : Bool) (engine : Option Resource) (inst : Resource) : Bool :=
  match engine with
  | none => true
  | some c => getFail || !SemanticEqual inst c

/-- Lines 212–224: set `status.Enforced = true`, write it back into the
resource, and call `Status().Update`; on that write's failure return
`\x7bRequeue: true\x7d` with a nil error (cache untouched, no metrics), else
upsert the cache entry to (action, active) and arm the metrics report. -/
def markEnforced (env : Env) (cache : ConstraintsCache) (engine : Option Resource)
    (key ea : String) (inst1 : Resource) (fx0 : Effects) : Outcome :=
  let inst2 := SetHAStatus inst1 { GetHAStatus inst1 with enforced := true }
  if env.statusUpdateErr then
    { result := ⟨true, none⟩, inst := some inst2, cache := cache, engine := engine,
      fx := { fx0 with statusUpdates := fx0.statusUpdates + 1 } }
  else
    { result := ⟨false, none⟩, inst := some inst2,
      cache := addConstraintKey cache key ⟨ea, Status.active⟩, engine := engine,
      fx := { fx0 with statusUpdates := fx0.statusUpdates + 1, metricsReported := true } }

/-- Lines 186–224, the sync branch on an active resource (entered with the
in-memory resource `inst0` and `upd` store updates already issued): clear the
status error list, fetch-and-compare against the engine, and either register
via `cacheConstraint` (on failure: upsert the cache entry to (action, error),
append the message to `status.Errors`, attempt the status write — logged only —
arm metrics and return the failure) or skip the write, then mark enforced. -/
def activeSync (env : Env) (cache : ConstraintsCache) (engine : Option Resource)
    (key ea : String) (inst0 : Resource) (upd : Nat) : Outcome :=
  let inst1 := clearErrors inst0
  if engineNeedsAdd env.getErr engine inst1 then
    match cacheConstraint env.addErr inst1 with
    | Except.error m =>
        let st2 : HAStatus :=
          { GetHAStatus inst1 with errors := (GetHAStatus inst1).errors ++ [m] }
        { result := ⟨false, some m⟩,
          inst := some (SetHAStatus inst1 st2),
          cache := addConstraintKey cache key ⟨ea, Status.error⟩,
          engine := engine,
          fx := ⟨1, 1, 0, upd, 1, true⟩ }
    | Except.ok obj => markEnforced env cache (some obj) key ea inst1 ⟨1, 1, 0, upd, 0, false⟩
  else
    markEnforced env cache engine key ea inst1 ⟨1, 0, 0, upd, 0, false⟩

/-- Lines 235–241 tail of the deletion branch, after a successful (or
unrecognized) engine removal: remove the finalizer in memory and call
`r.Update`; on failure return `\x7bRequeue: true\x7d` with a nil error, leaving
the cache untouched and metrics unarmed; on success delete the cache entry and
arm the metrics report. -/
def finalizeUpdate (env : Env) (cache : ConstraintsCache) (engineLeft : Option Resource)
    (key : String) (inst : Resource) : Outcome :=
  let inst1 := RemoveFinalizer inst
  match env.updateResult with
  | Except.error _ =>
      { result := ⟨true, none⟩, inst := some inst1, cache := cache, engine := engineLeft,
        fx := ⟨0, 0, 1, 1, 0, false⟩ }
  | Except.ok srv =>
      { result := ⟨false, none⟩, inst := some { inst1 with status := srv },
        cache := deleteConstraintKey cache key, engine := engineLeft,
        fx := ⟨0, 0, 1, 1, 0, true⟩ }

/-- Lines 225–243, the deletion branch: with the finalizer present, call
`opa.RemoveConstraint`; a failure other than `UnrecognizedConstraintError` is
returned as the pass's error with nothing else changed; otherwise proceed to
the finalizer-removal update. Without the finalizer the pass is a no-op. -/
def finalize (env : Env) (cache : ConstraintsCache) (engine : Option Resource)
    (key : String) (inst : Resource) : Outcome :=
  if HasFinalizer inst then
    match env.removeOutcome with
    | RemoveOutcome.failed m =>
        { result := ⟨false, some m⟩, inst := some inst, cache := cache, engine := engine,
          fx := ⟨0, 0, 1, 0, 0, false⟩ }
    | RemoveOutcome.removed => finalizeUpdate env cache none key inst
    | RemoveOutcome.unrecognized => finalizeUpdate env cache engine key inst
  else
    { result := ⟨false, none⟩, inst := some inst, cache := cache, engine := engine, fx := noFx }

/-- Lines 138–245, `ReconcileConstraint.Reconcile`, one pass: consult the
processing gate; fetch the resource (not-found is benign, other store errors
are returned); derive the constraint key and the enforcement action (an
extraction error is returned before anything else happens); then branch on the
deletion timestamp — an active resource first gets the finalizer attached when
missing (an update failure returns `\x7bRequeue: true\x7d` with a nil error and
ends the pass) and the pass then continues into the sync branch, while a
deleting resource goes through the finalization branch. -/
def Reconcile (env : Env) (cache : ConstraintsCache) (engine : Option Resource) : Outcome :=
  if !env.enabled then
    { result := ⟨false, none⟩, inst := none, cache := cache, engine := engine, fx := noFx }
  else
    match env.store with
    | StoreGet.notFound =>
        { result := ⟨false, none⟩, inst := none, cache := cache, engine := engine, fx := noFx }
    | StoreGet.errOther m =>
        { result := ⟨false, some m⟩, inst := none, cache := cache, engine := engine, fx := noFx }
    | StoreGet.found inst0 =>
        let key := constraintKey inst0
        match GetEnforcementAction inst0 with
        | Except.error m =>
            { result := ⟨false, some m⟩, inst := some inst0, cache := cache, engine := engine,
              fx := noFx }
        | Except.ok ea =>
            if inst0.deletionRequested then
              finalize env cache engine key inst0
            else if HasFinalizer inst0 then
              activeSync env cache engine key ea inst0 0
            else
              match attachFinalizer env.updateResult inst0 with
              | none =>
                  { result := ⟨true, none⟩, inst := some (withFinalizer inst0),
                    cache := cache, engine := engine, fx := ⟨0, 0, 0, 1, 0, false⟩ }
              | some inst1 => activeSync env cache engine key ea inst1 1

/-- The in-memory resource with which an active pass enters the sync branch:
the fetched resource itself when it already carries the finalizer, otherwise
the result of the finalizer attach (`none` when that update failed and the
pass ended early). -/
def reachSync (env : Env) (r : Resource) : Option Resource :=
  if HasFinalizer r then some r else attachFinalizer env.updateResult r

/-! Helper lemmas shared by the claim theorems. -/

lemma stripStatus_clearErrors (r : Resource) : stripStatus (clearErrors r) = stripStatus r := by
  simp [stripStatus, clearErrors, SetHAStatus]

lemma semanticEqual_clearErrors (a b : Resource) :
    SemanticEqual (clearErrors a) b = SemanticEqual a b := by
  simp [SemanticEqual, stripStatus_clearErrors]

lemma engineNeedsAdd_clearErrors (g : Bool) (e : Option Resource) (r : Resource) :
    engineNeedsAdd g e (clearErrors r) = engineNeedsAdd g e r := by
  cases e <;> simp [engineNeedsAdd, semanticEqual_clearErrors]

lemma reconcile_to_activeSync (env : Env) (c : ConstraintsCache) (e : Option Resource)
    (r i : Resource) (ea : String)
    (hen : env.enabled = true) (hst : env.store = StoreGet.found r)
    (hea : r.eaResult = Except.ok ea) (hdel : r.deletionRequested = false)
    (hreach : reachSync env r = some i) :
    ∃ u, Reconcile env c e = activeSync env c e (constraintKey r) ea i u := by
  by_cases hf : HasFinalizer r = true
  · refine ⟨0, ?_⟩
    have hi : i = r := by
      have h := hreach
      simp only [reachSync, hf, if_true, Option.some.injEq] at h
      exact h.symm
    subst hi
    simp [Reconcile, hen, hst, GetEnforcementAction, hea, hdel, hf]
  · refine ⟨1, ?_⟩
    have hf' : HasFinalizer r = false := by
      cases h : HasFinalizer r
      · rfl
      · exact absurd h hf
    have hat : attachFinalizer env.updateResult r = some i := by
      have h := hreach
      simp only [reachSync, hf', if_false, Bool.false_eq_true] at h
      exact h
    simp [Reconcile, hen, hst, GetEnforcementAction, hea, hdel, hf', hat]

lemma activeSync_addFail (env : Env) (c : ConstraintsCache) (e : Option Resource)
    (key ea : String) (i : Resource) (u : Nat) (m : String)
    (hneed : engineNeedsAdd env.getErr e (clearErrors i) = true)
    (hadd : env.addErr = some m) :
    activeSync env c e key ea i u =
      { result := ⟨false, some m⟩,
        inst := some { i with status := some ⟨(GetHAStatus i).enforced, [m]⟩ },
        cache := addConstraintKey c key ⟨ea, Status.error⟩,
        engine := e,
        fx := ⟨1, 1, 0, u, 1, true⟩ } := by
  simp only [activeSync, hneed, if_true, hadd, cacheConstraint]
  simp [clearErrors, SetHAStatus, GetHAStatus]

lemma activeSync_addOk (env : Env) (c : ConstraintsCache) (e : Option Resource)
    (key ea : String) (i : Resource) (u : Nat)
    (hneed : engineNeedsAdd env.getErr e (clearErrors i) = true)
    (hadd : env.addErr = none) :
    activeSync env c e key ea i u =
      markEnforced env c (some (stripStatus i)) key ea (clearErrors i) ⟨1, 1, 0, u, 0, false⟩ := by
  simp only [activeSync, hneed, if_true, hadd, cacheConstraint]
  rw [stripStatus_clearErrors]

lemma activeSync_skip (env : Env) (c : ConstraintsCache) (e : Option Resource)
    (key ea : String) (i : Resource) (u : Nat)
    (hneed : engineNeedsAdd env.getErr e (clearErrors i) = false) :
    activeSync env c e key ea i u =
      markEnforced env c e key ea (clearErrors i) ⟨1, 0, 0, u, 0, false⟩ := by
  simp only [activeSync, hneed, Bool.false_eq_true, if_false]

lemma markEnforced_clearErrors (env : Env) (c : ConstraintsCache) (e : Option Resource)
    (key ea : String) (i : Resource) (fx0 : Effects) :
    markEnforced env c e key ea (clearErrors i) fx0 =
      if env.statusUpdateErr then
        { result := ⟨true, none⟩, inst := some { i with status := some ⟨true, []⟩ },
          cache := c, engine := e,
          fx := { fx0 with statusUpdates := fx0.statusUpdates + 1 } }
      else
        { result := ⟨false, none⟩, inst := some { i with status := some ⟨true, []⟩ },
          cache := addConstraintKey c key ⟨ea, Status.active⟩, engine := e,
          fx := { fx0 with statusUpdates := fx0.statusUpdates + 1, metricsReported := true } } := by
  unfold markEnforced
  split <;> simp [clearErrors, SetHAStatus, GetHAStatus]

lemma constraintTotals_from (c : ConstraintsCache) (m : tags → Nat) (t : tags) :
    (c.foldl (fun acc kv => bumpTag acc kv.2) m) t
      = m t + (c.filter fun kv => decide (kv.2 = t)).length := by
  induction c generalizing m with
  | nil => simp
  | cons kv tl ih =>
      simp only [List.foldl_cons]
      rw [ih]
      by_cases h : kv.2 = t
      · have hb : bumpTag m kv.2 t = m t + 1 := by simp [bumpTag, h]
        have hf : ((kv :: tl).filter fun kv => decide (kv.2 = t)).length
            = (tl.filter fun kv => decide (kv.2 = t)).length + 1 := by
          simp [List.filter_cons, h]
        rw [hb, hf]
        omega
      · have hb : bumpTag m kv.2 t = m t := by
          unfold bumpTag
          rw [if_neg]
          intro he
          exact h he.symm
        have hf : ((kv :: tl).filter fun kv => decide (kv.2 = t)).length
            = (tl.filter fun kv => decide (kv.2 = t)).length := by
          simp [List.filter_cons, h]
        rw [hb, hf]

lemma constraintTotals_eq_count (c : ConstraintsCache) (t : tags) :
    constraintTotals c t = (c.filter fun kv => decide (kv.2 = t)).length := by
  simpa using constraintTotals_from c (fun _ => 0) t

/-- C10: a failing enforcement-action extraction ends the pass with that error
before either branch runs: no engine call, no store update, no status write,
no cache change, no metrics report, and the in-memory resource untouched —
also when the resource has deletion requested and the finalizer present, so
finalization stays blocked. -/
theorem enforcement_action_error_aborts_pass (env : Env) (c : ConstraintsCache)
    (e : Option Resource) (r : Resource) (m : String)
    (hen : env.enabled = true) (hst : env.store = StoreGet.found r)
    (hea : r.eaResult = Except.error m) :
    Reconcile env c e =
      { result := ⟨false, some m⟩, inst := some r, cache := c, engine := e, fx := noFx } := by
  simp [Reconcile, hen, hst, GetEnforcementAction, hea]

def rBadEA : Resource :=
  ⟨"K", "a", true, [finalizerName], "X", Except.error "bad action", none⟩

def envBadEA : Env :=
  ⟨true, StoreGet.found rBadEA, Except.ok none, false, none, false, RemoveOutcome.removed⟩

theorem enforcement_action_error_aborts_pass_witness :
    envBadEA.enabled = true ∧ envBadEA.store = StoreGet.found rBadEA ∧
    rBadEA.eaResult = Except.error "bad action" ∧
    rBadEA.deletionRequested = true ∧ HasFinalizer rBadEA = true ∧
    Reconcile envBadEA [] none =
      { result := ⟨false, some "bad action"⟩, inst := some rBadEA, cache := [], engine := none,
        fx := noFx } :=
  ⟨rfl, rfl, rfl, rfl, by decide,
    enforcement_action_error_aborts_pass envBadEA [] none rBadEA "bad action" rfl rfl rfl⟩

/-- C7: for every cache state, the aggregation reports exactly one count per
(enforcement action × status) pair from the known taxonomies — zero cells
included — the reported count for a pair being the number of cache entries
whose tag equals that pair; the routine is a pure reader of the cache (it is
embedded as a function on the cache and returns only the report list). -/
theorem report_total_constraints_complete (c : ConstraintsCache) (ea : String) (s : Status)
    (h1 : ea ∈ KnownEnforcementActions) (h2 : s ∈ AllStatuses) :
    ((reportTotalConstraints c).filter fun p => decide (p.1 = ⟨ea, s⟩)).length = 1 ∧
    (⟨ea, s⟩, ((c.filter fun kv => decide (kv.2 = ⟨ea, s⟩)).length : Int))
      ∈ reportTotalConstraints c ∧
    (reportTotalConstraints c).length
      = KnownEnforcementActions.length * AllStatuses.length := by
  have hrep : reportTotalConstraints c =
      [(⟨"deny", Status.active⟩, (constraintTotals c ⟨"deny", Status.active⟩ : Int)),
       (⟨"deny", Status.error⟩, (constraintTotals c ⟨"deny", Status.error⟩ : Int)),
       (⟨"dryrun", Status.active⟩, (constraintTotals c ⟨"dryrun", Status.active⟩ : Int)),
       (⟨"dryrun", Status.error⟩, (constraintTotals c ⟨"dryrun", Status.error⟩ : Int))] := rfl
  have hco : ∀ t : tags,
      (constraintTotals c t : Int) = ((c.filter fun kv => decide (kv.2 = t)).length : Int) := by
    intro t
    rw [constraintTotals_eq_count]
  simp only [KnownEnforcementActions, AllStatuses, List.mem_cons, List.not_mem_nil,
    or_false] at h1 h2
  rcases h1 with h1 | h1 <;> rcases h2 with h2 | h2 <;> subst h1 <;> subst h2 <;>
    refine ⟨by rw [hrep]; rfl, ?_, by rw [hrep]; rfl⟩ <;>
    rw [hrep, ← hco] <;> simp

def cacheW : ConstraintsCache := [("K/a", ⟨"deny", Status.active⟩), ("K/b", ⟨"deny", Status.active⟩)]

theorem report_total_constraints_complete_witness :
    "deny" ∈ KnownEnforcementActions ∧ Status.active ∈ AllStatuses ∧
    (((reportTotalConstraints cacheW).filter
        fun p => decide (p.1 = ⟨"deny", Status.active⟩)).length = 1 ∧
      (⟨"deny", Status.active⟩,
        ((cacheW.filter fun kv => decide (kv.2 = ⟨"deny", Status.active⟩)).length : Int))
        ∈ reportTotalConstraints cacheW ∧
      (reportTotalConstraints cacheW).length
        = KnownEnforcementActions.length * AllStatuses.length) :=
  ⟨by decide, by decide,
    report_total_constraints_complete cacheW "deny" Status.active (by decide) (by decide)⟩

/-- C2: in an active pass that reaches the sync branch and in which the engine
registration fails with message `m`, the pass upserts the cache entry for the
identity to (action, error), leaves the in-memory status with the failure
message appended to the cleared error list, attempts the status write exactly
once (its own failure is only logged and changes nothing), arms the metrics
report, and returns the registration failure with no requeue flag. -/
theorem registration_failure_effects (env : Env) (c : ConstraintsCache) (e : Option Resource)
    (r i : Resource) (ea m : String)
    (hen : env.enabled = true) (hst : env.store = StoreGet.found r)
    (hea : r.eaResult = Except.ok ea) (hdel : r.deletionRequested = false)
    (hreach : reachSync env r = some i)
    (hneed : engineNeedsAdd env.getErr e i = true)
    (hadd : env.addErr = some m) :
    ∃ u, Reconcile env c e =
      { result := ⟨false, some m⟩,
        inst := some { i with status := some ⟨(GetHAStatus i).enforced, [m]⟩ },
        cache := addConstraintKey c (constraintKey r) ⟨ea, Status.error⟩,
        engine := e,
        fx := ⟨1, 1, 0, u, 1, true⟩ } := by
  obtain ⟨u, hu⟩ := reconcile_to_activeSync env c e r i ea hen hst hea hdel hreach
  refine ⟨u, ?_⟩
  rw [hu]
  rw [activeSync_addFail env c e (constraintKey r) ea i u m ?_ hadd]
  rw [engineNeedsAdd_clearErrors]
  exact hneed

def rActiveW : Resource := ⟨"K", "a", false, [finalizerName], "X", Except.ok "deny", none⟩

def envAddFailW : Env :=
  ⟨true, StoreGet.found rActiveW, Except.ok none, false, some "bad rule", false,
    RemoveOutcome.removed⟩

theorem registration_failure_effects_witness :
    envAddFailW.enabled = true ∧ envAddFailW.store = StoreGet.found rActiveW ∧
    rActiveW.eaResult = Except.ok "deny" ∧ rActiveW.deletionRequested = false ∧
    reachSync envAddFailW rActiveW = some rActiveW ∧
    engineNeedsAdd envAddFailW.getErr none rActiveW = true ∧
    envAddFailW.addErr = some "bad rule" ∧
    (∃ u, Reconcile envAddFailW [] none =
      { result := ⟨false, some "bad rule"⟩,
        inst := some { rActiveW with status := some ⟨(GetHAStatus rActiveW).enforced, ["bad rule"]⟩ },
        cache := addConstraintKey [] (constraintKey rActiveW) ⟨"deny", Status.error⟩,
        engine := none,
        fx := ⟨1, 1, 0, u, 1, true⟩ }) :=
  ⟨rfl, rfl, rfl, rfl, by decide, rfl, rfl,
    registration_failure_effects envAddFailW [] none rActiveW rActiveW "deny" "bad rule"
      rfl rfl rfl rfl (by decide) rfl rfl⟩

lemma engineNeedsAdd_of_getErr (e : Option Resource) (i : Resource) :
    engineNeedsAdd true e i = true := by
  cases e <;> simp [engineNeedsAdd]

/-- C3: in an active pass that reaches the sync branch and in which the engine
registration succeeds (or is skipped because the engine content is already
semantically equal), the pass sets `status.Enforced = true` in memory and
issues exactly one status write; when that write fails, the pass returns
`\x7bRequeue: true\x7d` with a nil error — not a hard error — ending the pass
with the cache untouched and metrics unarmed; when it succeeds, the pass
upserts the cache entry to (action, active), arms the metrics report, and
returns no error. -/
theorem registration_success_status_write (env : Env) (c : ConstraintsCache)
    (e : Option Resource) (r i : Resource) (ea : String)
    (hen : env.enabled = true) (hst : env.store = StoreGet.found r)
    (hea : r.eaResult = Except.ok ea) (hdel : r.deletionRequested = false)
    (hreach : reachSync env r = some i)
    (hadd : env.addErr = none) :
    (Reconcile env c e).inst = some { i with status := some ⟨true, []⟩ } ∧
    (Reconcile env c e).fx.statusUpdates = 1 ∧
    (env.statusUpdateErr = true →
      (Reconcile env c e).result = ⟨true, none⟩ ∧ (Reconcile env c e).cache = c ∧
      (Reconcile env c e).fx.metricsReported = false) ∧
    (env.statusUpdateErr = false →
      (Reconcile env c e).result = ⟨false, none⟩ ∧
      (Reconcile env c e).cache = addConstraintKey c (constraintKey r) ⟨ea, Status.active⟩ ∧
      (Reconcile env c e).fx.metricsReported = true) := by
  obtain ⟨u, hu⟩ := reconcile_to_activeSync env c e r i ea hen hst hea hdel hreach
  rw [hu]
  by_cases hne : engineNeedsAdd env.getErr e i = true
  · rw [activeSync_addOk env c e (constraintKey r) ea i u
      (by rw [engineNeedsAdd_clearErrors]; exact hne) hadd, markEnforced_clearErrors]
    cases hs : env.statusUpdateErr <;> simp [hs]
  · have hne' : engineNeedsAdd env.getErr e i = false := by
      cases h : engineNeedsAdd env.getErr e i
      · rfl
      · exact absurd h hne
    rw [activeSync_skip env c e (constraintKey r) ea i u
      (by rw [engineNeedsAdd_clearErrors]; exact hne'), markEnforced_clearErrors]
    cases hs : env.statusUpdateErr <;> simp [hs]

def envAddOkW : Env :=
  ⟨true, StoreGet.found rActiveW, Except.ok none, false, none, false, RemoveOutcome.removed⟩

theorem registration_success_status_write_witness :
    envAddOkW.enabled = true ∧ envAddOkW.store = StoreGet.found rActiveW ∧
    rActiveW.eaResult = Except.ok "deny" ∧ rActiveW.deletionRequested = false ∧
    reachSync envAddOkW rActiveW = some rActiveW ∧ envAddOkW.addErr = none ∧
    ((Reconcile envAddOkW [] none).inst = some { rActiveW with status := some ⟨true, []⟩ } ∧
     (Reconcile envAddOkW [] none).fx.statusUpdates = 1 ∧
     (envAddOkW.statusUpdateErr = true →
       (Reconcile envAddOkW [] none).result = ⟨true, none⟩ ∧
       (Reconcile envAddOkW [] none).cache = [] ∧
       (Reconcile envAddOkW [] none).fx.metricsReported = false) ∧
     (envAddOkW.statusUpdateErr = false →
       (Reconcile envAddOkW [] none).result = ⟨false, none⟩ ∧
       (Reconcile envAddOkW [] none).cache
         = addConstraintKey [] (constraintKey rActiveW) ⟨"deny", Status.active⟩ ∧
       (Reconcile envAddOkW [] none).fx.metricsReported = true)) :=
  ⟨rfl, rfl, rfl, rfl, by decide, rfl,
    registration_success_status_write envAddOkW [] none rActiveW rActiveW "deny"
      rfl rfl rfl rfl (by decide) rfl⟩

/-- C9: in an active pass that reaches the sync branch with the engine fetch
(`GetConstraint`) failing, the pass does not surface the fetch error: it
behaves as if the contents were unequal, proceeding to exactly one
`AddConstraint` call, and the error it returns is exactly the registration
outcome (`none` when registration succeeds, the registration message
otherwise). -/
theorem engine_fetch_error_blind_overwrite (env : Env) (c : ConstraintsCache)
    (e : Option Resource) (r i : Resource) (ea : String)
    (hen : env.enabled = true) (hst : env.store = StoreGet.found r)
    (hea : r.eaResult = Except.ok ea) (hdel : r.deletionRequested = false)
    (hreach : reachSync env r = some i)
    (hget : env.getErr = true) :
    (Reconcile env c e).fx.engineGets = 1 ∧
    (Reconcile env c e).fx.engineAdds = 1 ∧
    (Reconcile env c e).result.err = env.addErr := by
  obtain ⟨u, hu⟩ := reconcile_to_activeSync env c e r i ea hen hst hea hdel hreach
  rw [hu]
  have hne : engineNeedsAdd env.getErr e (clearErrors i) = true := by
    rw [hget]
    exact engineNeedsAdd_of_getErr e (clearErrors i)
  cases hadd : env.addErr with
  | some m =>
      rw [activeSync_addFail env c e (constraintKey r) ea i u m hne hadd]
      exact ⟨rfl, rfl, rfl⟩
  | none =>
      rw [activeSync_addOk env c e (constraintKey r) ea i u hne hadd, markEnforced_clearErrors]
      cases hs : env.statusUpdateErr <;> simp [hs]

def envGetErrW : Env :=
  ⟨true, StoreGet.found rActiveW, Except.ok none, true, none, false, RemoveOutcome.removed⟩

theorem engine_fetch_error_blind_overwrite_witness :
    envGetErrW.enabled = true ∧ envGetErrW.store = StoreGet.found rActiveW ∧
    rActiveW.eaResult = Except.ok "deny" ∧ rActiveW.deletionRequested = false ∧
    reachSync envGetErrW rActiveW = some rActiveW ∧ envGetErrW.getErr = true ∧
    ((Reconcile envGetErrW [] (some rBadEA)).fx.engineGets = 1 ∧
     (Reconcile envGetErrW [] (some rBadEA)).fx.engineAdds = 1 ∧
     (Reconcile envGetErrW [] (some rBadEA)).result.err = envGetErrW.addErr) :=
  ⟨rfl, rfl, rfl, rfl, by decide, rfl,
    engine_fetch_error_blind_overwrite envGetErrW [] (some rBadEA) rActiveW rActiveW "deny"
      rfl rfl rfl rfl (by decide) rfl⟩

/-- C8: whenever an active pass registers the rule, the object handed to
`AddConstraint` is the deep copy of the in-memory resource with exactly its
status field removed (all other fields verbatim), that object is what the
engine ends up storing, and the pass's own in-memory resource keeps a status
field — the registration call never strips the caller's copy. -/
theorem engine_receives_status_stripped_copy (env : Env) (c : ConstraintsCache)
    (e : Option Resource) (r i : Resource) (ea : String)
    (hen : env.enabled = true) (hst : env.store = StoreGet.found r)
    (hea : r.eaResult = Except.ok ea) (hdel : r.deletionRequested = false)
    (hreach : reachSync env r = some i)
    (hneed : engineNeedsAdd env.getErr e i = true)
    (hadd : env.addErr = none) :
    cacheConstraint env.addErr (clearErrors i) = Except.ok { i with status := none } ∧
    stripStatus (clearErrors i) = { i with status := none } ∧
    (Reconcile env c e).engine = some { i with status := none } ∧
    (Reconcile env c e).inst = some { i with status := some ⟨true, []⟩ } := by
  have hstrip : stripStatus (clearErrors i) = { i with status := none } := by
    rw [stripStatus_clearErrors]
    rfl
  have hcc : cacheConstraint env.addErr (clearErrors i) = Except.ok { i with status := none } := by
    rw [hadd]
    simp [cacheConstraint, hstrip]
  obtain ⟨u, hu⟩ := reconcile_to_activeSync env c e r i ea hen hst hea hdel hreach
  rw [hu]
  rw [activeSync_addOk env c e (constraintKey r) ea i u
    (by rw [engineNeedsAdd_clearErrors]; exact hneed) hadd, markEnforced_clearErrors]
  refine ⟨hcc, hstrip, ?_⟩
  cases hs : env.statusUpdateErr <;> simp [hs] <;> rfl

def rStrippedW : Resource :=
  ⟨"K", "a", false, [finalizerName], "X", Except.ok "deny", some ⟨false, ["stale"]⟩⟩

def envStrippedW : Env :=
  ⟨true, StoreGet.found rStrippedW, Except.ok none, false, none, false, RemoveOutcome.removed⟩

theorem engine_receives_status_stripped_copy_witness :
    envStrippedW.enabled = true ∧ envStrippedW.store = StoreGet.found rStrippedW ∧
    rStrippedW.eaResult = Except.ok "deny" ∧ rStrippedW.deletionRequested = false ∧
    reachSync envStrippedW rStrippedW = some rStrippedW ∧
    engineNeedsAdd envStrippedW.getErr none rStrippedW = true ∧ envStrippedW.addErr = none ∧
    (cacheConstraint envStrippedW.addErr (clearErrors rStrippedW)
        = Except.ok { rStrippedW with status := none } ∧
      stripStatus (clearErrors rStrippedW) = { rStrippedW with status := none } ∧
      (Reconcile envStrippedW [] none).engine = some { rStrippedW with status := none } ∧
      (Reconcile envStrippedW [] none).inst
        = some { rStrippedW with status := some ⟨true, []⟩ }) :=
  ⟨rfl, rfl, rfl, rfl, by decide, rfl, rfl,
    engine_receives_status_stripped_copy envStrippedW [] none rStrippedW rStrippedW "deny"
      rfl rfl rfl rfl (by decide) rfl rfl⟩

/-- C6: a pass that attaches the finalizer to a resource not previously
carrying it preserves a pre-existing status sub-object verbatim across the
update call — whatever status the store's update response carries, after the
save-and-restore the in-memory resource's status equals its status before the
update — and the pass then continues into the sync branch with exactly that
resource. -/
theorem marker_attach_preserves_status (env : Env) (c : ConstraintsCache)
    (e : Option Resource) (r : Resource) (s : HAStatus) (ea : String) (srv : Option HAStatus)
    (hen : env.enabled = true) (hst : env.store = StoreGet.found r)
    (hea : r.eaResult = Except.ok ea) (hdel : r.deletionRequested = false)
    (hnofin : HasFinalizer r = false)
    (hupd : env.updateResult = Except.ok srv)
    (hstat : r.status = some s) :
    attachFinalizer env.updateResult r = some (withFinalizer r) ∧
    (withFinalizer r).status = some s ∧
    Reconcile env c e = activeSync env c e (constraintKey r) ea (withFinalizer r) 1 := by
  have hat : attachFinalizer env.updateResult r = some (withFinalizer r) := by
    rw [hupd]
    simp [attachFinalizer, withFinalizer, hstat]
  refine ⟨hat, by simp [withFinalizer, hstat], ?_⟩
  simp [Reconcile, hen, hst, GetEnforcementAction, hea, hdel, hnofin, hat]

def rPriorStatusW : Resource :=
  ⟨"K", "a", false, [], "X", Except.ok "deny", some ⟨false, ["old"]⟩⟩

def envAttachW : Env :=
  ⟨true, StoreGet.found rPriorStatusW, Except.ok (some ⟨true, ["server"]⟩), false, none, false,
    RemoveOutcome.removed⟩

theorem marker_attach_preserves_status_witness :
    envAttachW.enabled = true ∧ envAttachW.store = StoreGet.found rPriorStatusW ∧
    rPriorStatusW.eaResult = Except.ok "deny" ∧ rPriorStatusW.deletionRequested = false ∧
    HasFinalizer rPriorStatusW = false ∧
    envAttachW.updateResult = Except.ok (some ⟨true, ["server"]⟩) ∧
    rPriorStatusW.status = some ⟨false, ["old"]⟩ ∧
    (attachFinalizer envAttachW.updateResult rPriorStatusW = some (withFinalizer rPriorStatusW) ∧
      (withFinalizer rPriorStatusW).status = some ⟨false, ["old"]⟩ ∧
      Reconcile envAttachW [] none
        = activeSync envAttachW [] none (constraintKey rPriorStatusW) "deny"
            (withFinalizer rPriorStatusW) 1) :=
  ⟨rfl, rfl, rfl, rfl, by decide, rfl, rfl,
    marker_attach_preserves_status envAttachW [] none rPriorStatusW ⟨false, ["old"]⟩ "deny"
      (some ⟨true, ["server"]⟩) rfl rfl rfl rfl (by decide) rfl rfl⟩

lemma contains_remove (s : String) (l : List String) :
    containsString s (removeString s l) = false := by
  rw [Bool.eq_false_iff]
  intro h
  rw [containsString, List.any_eq_true] at h
  obtain ⟨x, hx, hq⟩ := h
  rw [removeString, List.mem_filter] at hx
  have hne : x ≠ s := by
    have h2 := hx.2
    rwa [bne_iff_ne] at h2
  rw [beq_iff_eq] at hq
  exact hne hq

lemma hasFinalizer_removeFinalizer (r : Resource) :
    HasFinalizer (RemoveFinalizer r) = false := by
  simp only [HasFinalizer, RemoveFinalizer]
  exact contains_remove finalizerName r.finalizers

def rDelW : Resource :=
  ⟨"K", "a", true, [finalizerName], "X", Except.ok "deny", some ⟨true, []⟩⟩

def envDelUpdFailW : Env :=
  ⟨true, StoreGet.found rDelW, Except.error (), false, none, false, RemoveOutcome.removed⟩

def cacheDelW : ConstraintsCache := [("K/a", ⟨"deny", Status.active⟩)]

/-- C1 counterexample: a deletion pass with the finalizer present in which the
engine removal succeeds but the finalizer-removal store write fails. The claim
asserts that every such pass deletes the identity's RuleCache entry and
triggers a metrics report; this pass returns `(Requeue, nil)` with the cache
entry still present and no metrics report. -/
theorem finalizer_removal_claim_counterexample :
    rDelW.deletionRequested = true ∧ HasFinalizer rDelW = true ∧
    envDelUpdFailW.removeOutcome = RemoveOutcome.removed ∧
    (Reconcile envDelUpdFailW cacheDelW none).result.err = none ∧
    cacheLookup (Reconcile envDelUpdFailW cacheDelW none).cache "K/a"
      = some ⟨"deny", Status.active⟩ ∧
    (Reconcile envDelUpdFailW cacheDelW none).fx.metricsReported = false := by
  refine ⟨rfl, by decide, rfl, rfl, ?_, rfl⟩
  rfl

/-- C1 (amended): in a deletion pass with the finalizer present, an engine
removal failure other than "unrecognized constraint" is returned as the pass's
error with the finalizer still present and the RuleCache entry unchanged — the
marker is never removed before the engine removal is confirmed (or confirmed
already absent). When the removal succeeds or reports the constraint
unrecognized, the finalizer is removed from the in-memory resource and written
back: if that store write succeeds the pass deletes the RuleCache entry,
triggers the metrics report, and returns no error; if it fails the pass
returns `\x7bRequeue: true\x7d` with a nil error, leaving the RuleCache entry
and the metrics report untouched until a future pass. -/
theorem finalizer_removal_ordering (env : Env) (c : ConstraintsCache) (e : Option Resource)
    (r : Resource) (ea : String)
    (hen : env.enabled = true) (hst : env.store = StoreGet.found r)
    (hea : r.eaResult = Except.ok ea) (hdel : r.deletionRequested = true)
    (hfin : HasFinalizer r = true) :
    (∀ m, env.removeOutcome = RemoveOutcome.failed m →
      Reconcile env c e =
        { result := ⟨false, some m⟩, inst := some r, cache := c, engine := e,
          fx := ⟨0, 0, 1, 0, 0, false⟩ }) ∧
    ((env.removeOutcome = RemoveOutcome.removed ∨
        env.removeOutcome = RemoveOutcome.unrecognized) →
      ((env.updateResult = Except.error () →
        (Reconcile env c e).result = ⟨true, none⟩ ∧
        (Reconcile env c e).inst = some (RemoveFinalizer r) ∧
        (Reconcile env c e).cache = c ∧
        (Reconcile env c e).fx.metricsReported = false) ∧
      (∀ srv, env.updateResult = Except.ok srv →
        (Reconcile env c e).result = ⟨false, none⟩ ∧
        (Reconcile env c e).inst = some { RemoveFinalizer r with status := srv } ∧
        HasFinalizer (RemoveFinalizer r) = false ∧
        (Reconcile env c e).cache = deleteConstraintKey c (constraintKey r) ∧
        (Reconcile env c e).fx.metricsReported = true))) := by
  constructor
  · intro m hro
    simp [Reconcile, hen, hst, GetEnforcementAction, hea, hdel, finalize, hfin, hro]
  · intro hro
    constructor
    · intro hup
      rcases hro with hro | hro <;>
        simp [Reconcile, hen, hst, GetEnforcementAction, hea, hdel, finalize, hfin, hro,
          finalizeUpdate, hup]
    · intro srv hup
      rcases hro with hro | hro <;>
        refine ⟨?_, ?_, hasFinalizer_removeFinalizer r, ?_, ?_⟩ <;>
        simp [Reconcile, hen, hst, GetEnforcementAction, hea, hdel, finalize, hfin, hro,
          finalizeUpdate, hup]

def envDelOkW : Env :=
  ⟨true, StoreGet.found rDelW, Except.ok none, false, none, false, RemoveOutcome.unrecognized⟩

theorem finalizer_removal_ordering_witness :
    envDelOkW.enabled = true ∧ envDelOkW.store = StoreGet.found rDelW ∧
    rDelW.eaResult = Except.ok "deny" ∧ rDelW.deletionRequested = true ∧
    HasFinalizer rDelW = true ∧
    envDelOkW.removeOutcome = RemoveOutcome.unrecognized ∧
    envDelOkW.updateResult = Except.ok none ∧
    ((Reconcile envDelOkW cacheDelW none).result = ⟨false, none⟩ ∧
      (Reconcile envDelOkW cacheDelW none).inst = some { RemoveFinalizer rDelW with status := none } ∧
      HasFinalizer (RemoveFinalizer rDelW) = false ∧
      (Reconcile envDelOkW cacheDelW none).cache
        = deleteConstraintKey cacheDelW (constraintKey rDelW) ∧
      (Reconcile envDelOkW cacheDelW none).fx.metricsReported = true) :=
  ⟨rfl, rfl, rfl, rfl, by decide, rfl, rfl,
    ((finalizer_removal_ordering envDelOkW cacheDelW none rDelW "deny"
      rfl rfl rfl rfl (by decide)).2 (Or.inr rfl)).2 none rfl⟩

def rFreshW : Resource := ⟨"K", "a", false, [], "X", Except.ok "deny", none⟩

def envFreshW : Env :=
  ⟨true, StoreGet.found rFreshW, Except.ok none, false, none, false, RemoveOutcome.removed⟩

/-- C5 counterexample: a first pass on a newly created resource without the
finalizer. The claim asserts the engine registration, the `enforced=true`
status, and the (action, active) cache entry happen only in a separate second
pass; this single pass both attaches the finalizer (one store update) and
registers the rule (one engine add), sets `enforced=true`, and writes the
(deny, active) cache entry. -/
theorem marker_pass_registers_counterexample :
    HasFinalizer rFreshW = false ∧
    (Reconcile envFreshW [] none).fx.storeUpdates = 1 ∧
    (Reconcile envFreshW [] none).fx.engineAdds = 1 ∧
    (Reconcile envFreshW [] none).inst
      = some { rFreshW with finalizers := [finalizerName], status := some ⟨true, []⟩ } ∧
    cacheLookup (Reconcile envFreshW [] none).cache "K/a" = some ⟨"deny", Status.active⟩ ∧
    (Reconcile envFreshW [] none).result = ⟨false, none⟩ := by
  refine ⟨by decide, rfl, rfl, ?_, ?_, rfl⟩ <;> rfl

/-- C5 (amended): on a newly created resource with no finalizer and no rule
yet in the engine, the first successful pass both attaches the finalizer and —
in the same pass — registers the rule with the engine, sets
`status.Enforced = true`, upserts the RuleCache entry to (action, active), and
arms the metrics report; the sync work is not deferred to a separate second
pass. -/
theorem marker_attach_pass_full_sync (env : Env) (c : ConstraintsCache)
    (r : Resource) (ea : String) (srv : Option HAStatus)
    (hen : env.enabled = true) (hst : env.store = StoreGet.found r)
    (hea : r.eaResult = Except.ok ea) (hdel : r.deletionRequested = false)
    (hnofin : HasFinalizer r = false)
    (hupd : env.updateResult = Except.ok srv)
    (hadd : env.addErr = none)
    (hsu : env.statusUpdateErr = false) :
    Reconcile env c none =
      { result := ⟨false, none⟩,
        inst :=
          some { r with finalizers := r.finalizers ++ [finalizerName], status := some ⟨true, []⟩ },
        cache := addConstraintKey c (constraintKey r) ⟨ea, Status.active⟩,
        engine := some { r with finalizers := r.finalizers ++ [finalizerName], status := none },
        fx := ⟨1, 1, 0, 1, 1, true⟩ } := by
  obtain ⟨i, hat, hi⟩ :
      ∃ i, attachFinalizer env.updateResult r = some i ∧
        ∃ st, i = { r with finalizers := r.finalizers ++ [finalizerName], status := st } := by
    rw [hupd]
    cases hs : r.status with
    | none =>
        refine ⟨{ r with finalizers := r.finalizers ++ [finalizerName], status := srv },
          ?_, srv, rfl⟩
        simp [attachFinalizer, withFinalizer, hs]
    | some s =>
        refine ⟨{ r with finalizers := r.finalizers ++ [finalizerName], status := some s },
          ?_, some s, rfl⟩
        simp [attachFinalizer, withFinalizer, hs]
  obtain ⟨st, hi⟩ := hi
  have hrec : Reconcile env c none = activeSync env c none (constraintKey r) ea i 1 := by
    simp [Reconcile, hen, hst, GetEnforcementAction, hea, hdel, hnofin, hat]
  have hne : engineNeedsAdd env.getErr (none : Option Resource) (clearErrors i) = true := by
    simp [engineNeedsAdd]
  rw [hrec, activeSync_addOk env c none (constraintKey r) ea i 1 hne hadd,
    markEnforced_clearErrors, if_neg (by rw [hsu]; exact Bool.false_ne_true)]
  subst hi
  rfl

theorem marker_attach_pass_full_sync_witness :
    envFreshW.enabled = true ∧ envFreshW.store = StoreGet.found rFreshW ∧
    rFreshW.eaResult = Except.ok "deny" ∧ rFreshW.deletionRequested = false ∧
    HasFinalizer rFreshW = false ∧ envFreshW.updateResult = Except.ok none ∧
    envFreshW.addErr = none ∧ envFreshW.statusUpdateErr = false ∧
    Reconcile envFreshW [] none =
      { result := ⟨false, none⟩,
        inst :=
          some { rFreshW with finalizers := rFreshW.finalizers ++ [finalizerName], status := some ⟨true, []⟩ },
        cache := addConstraintKey [] (constraintKey rFreshW) ⟨"deny", Status.active⟩,
        engine :=
          some { rFreshW with finalizers := rFreshW.finalizers ++ [finalizerName], status := none },
        fx := ⟨1, 1, 0, 1, 1, true⟩ } :=
  ⟨rfl, rfl, rfl, rfl, by decide, rfl, rfl, rfl,
    marker_attach_pass_full_sync envFreshW [] rFreshW "deny" none
      rfl rfl rfl rfl (by decide) rfl rfl rfl⟩

lemma filter_idem_cache (l : ConstraintsCache) (p : String × tags → Bool) :
    (l.filter p).filter p = l.filter p := by
  induction l with
  | nil => rfl
  | cons x xs ih => cases hx : p x <;> simp [List.filter_cons, hx, ih]

lemma addConstraintKey_idem (c : ConstraintsCache) (k : String) (t : tags) :
    addConstraintKey (addConstraintKey c k t) k t = addConstraintKey c k t := by
  simp [addConstraintKey, List.filter_cons, filter_idem_cache]

/-- C4: reconciling the same unchanged resource a second time — the second
pass fetches the resource state the first happy pass persisted (finalizer
present, status enforced with no errors) together with the cache and engine
state the first pass left behind — issues no engine write (`engineAdds = 0`,
the semantic-equality check against the engine's current content
short-circuits `AddConstraint`), returns no error, and leaves the in-memory
resource (status and finalizer set) the same as after the first pass, the
cache entry unchanged, and the engine content unchanged. -/
theorem reconcile_idempotent_second_pass
    (r0 : Resource) (c0 : ConstraintsCache) (e0 : Option Resource) (ea : String)
    (env1 env2 : Env)
    (hfin : HasFinalizer r0 = true)
    (hdel : r0.deletionRequested = false)
    (hea : r0.eaResult = Except.ok ea)
    (h1 : env1 = ⟨true, StoreGet.found r0, Except.ok none, false, none, false,
      RemoveOutcome.removed⟩)
    (h2 : env2 = ⟨true, StoreGet.found { r0 with status := some ⟨true, []⟩ }, Except.ok none,
      false, none, false, RemoveOutcome.removed⟩) :
    (Reconcile env1 c0 e0).inst = some { r0 with status := some ⟨true, []⟩ } ∧
    (Reconcile env2 (Reconcile env1 c0 e0).cache (Reconcile env1 c0 e0).engine).fx.engineAdds
      = 0 ∧
    Reconcile env2 (Reconcile env1 c0 e0).cache (Reconcile env1 c0 e0).engine =
      { result := ⟨false, none⟩,
        inst := (Reconcile env1 c0 e0).inst,
        cache := (Reconcile env1 c0 e0).cache,
        engine := (Reconcile env1 c0 e0).engine,
        fx := ⟨1, 0, 0, 0, 1, true⟩ } := by
  have hen1 : env1.enabled = true := by rw [h1]
  have hst1 : env1.store = StoreGet.found r0 := by rw [h1]
  have hget1 : env1.getErr = false := by rw [h1]
  have hadd1 : env1.addErr = none := by rw [h1]
  have hsu1 : env1.statusUpdateErr = false := by rw [h1]
  have hen2 : env2.enabled = true := by rw [h2]
  have hst2 : env2.store = StoreGet.found { r0 with status := some ⟨true, []⟩ } := by rw [h2]
  have hget2 : env2.getErr = false := by rw [h2]
  have hsu2 : env2.statusUpdateErr = false := by rw [h2]
  have hp1 : Reconcile env1 c0 e0 = activeSync env1 c0 e0 (constraintKey r0) ea r0 0 := by
    simp [Reconcile, hen1, hst1, GetEnforcementAction, hea, hdel, hfin]
  have key : ∃ ce fx1,
      Reconcile env1 c0 e0 =
        { result := ⟨false, none⟩, inst := some { r0 with status := some ⟨true, []⟩ },
          cache := addConstraintKey c0 (constraintKey r0) ⟨ea, Status.active⟩,
          engine := some ce, fx := fx1 } ∧
      stripStatus ce = stripStatus r0 := by
    cases hne : engineNeedsAdd env1.getErr e0 (clearErrors r0) with
    | true =>
        refine ⟨stripStatus r0, ⟨1, 1, 0, 0, 1, true⟩, ?_, rfl⟩
        rw [hp1, activeSync_addOk env1 c0 e0 (constraintKey r0) ea r0 0 hne hadd1,
          markEnforced_clearErrors, if_neg (by rw [hsu1]; exact Bool.false_ne_true)]
    | false =>
        cases e0 with
        | none => simp [engineNeedsAdd] at hne
        | some ce =>
            have hce : stripStatus ce = stripStatus r0 := by
              have h := hne
              simp [engineNeedsAdd, hget1, SemanticEqual, stripStatus_clearErrors] at h
              exact h.symm
            refine ⟨ce, ⟨1, 0, 0, 0, 1, true⟩, ?_, hce⟩
            rw [hp1, activeSync_skip env1 c0 (some ce) (constraintKey r0) ea r0 0 hne,
              markEnforced_clearErrors, if_neg (by rw [hsu1]; exact Bool.false_ne_true)]
  obtain ⟨ce, fx1, ho1, hce⟩ := key
  have hsem : SemanticEqual (clearErrors { r0 with status := some ⟨true, []⟩ }) ce = true := by
    rw [SemanticEqual, stripStatus_clearErrors, hce]
    simp [stripStatus]
  have hne2 : engineNeedsAdd env2.getErr (some ce)
      (clearErrors { r0 with status := some ⟨true, []⟩ }) = false := by
    simp [engineNeedsAdd, hget2, hsem]
  have ho2 : Reconcile env2 (Reconcile env1 c0 e0).cache (Reconcile env1 c0 e0).engine =
      { result := ⟨false, none⟩, inst := some { r0 with status := some ⟨true, []⟩ },
        cache := addConstraintKey c0 (constraintKey r0) ⟨ea, Status.active⟩,
        engine := some ce, fx := ⟨1, 0, 0, 0, 1, true⟩ } := by
    rw [ho1]
    show Reconcile env2 (addConstraintKey c0 (constraintKey r0) ⟨ea, Status.active⟩) (some ce)
      = _
    have hp2 : Reconcile env2 (addConstraintKey c0 (constraintKey r0) ⟨ea, Status.active⟩)
        (some ce)
        = activeSync env2 (addConstraintKey c0 (constraintKey r0) ⟨ea, Status.active⟩) (some ce)
            (constraintKey { r0 with status := some ⟨true, []⟩ }) ea
            { r0 with status := some ⟨true, []⟩ } 0 := by
      have hfin2 : HasFinalizer { r0 with status := some ⟨true, []⟩ } = true := hfin
      have hdel2 : Resource.deletionRequested { r0 with status := some ⟨true, []⟩ } = false :=
        hdel
      have hea2 : Resource.eaResult { r0 with status := some ⟨true, []⟩ } = Except.ok ea := hea
      simp [Reconcile, hen2, hst2, GetEnforcementAction, hea, hdel, hea2, hdel2, hfin2]
      intro hcontra
      have hc : HasFinalizer r0 = false := hcontra
      rw [hfin] at hc
      cases hc
    rw [hp2, activeSync_skip env2 _ (some ce) _ ea { r0 with status := some ⟨true, []⟩ } 0 hne2,
      markEnforced_clearErrors, if_neg (by rw [hsu2]; exact Bool.false_ne_true)]
    have hkey : constraintKey { r0 with status := some ⟨true, []⟩ } = constraintKey r0 := rfl
    rw [hkey, addConstraintKey_idem]
  refine ⟨by rw [ho1], by rw [ho2], ?_⟩
  rw [ho2, ho1]

def envIdem1 : Env :=
  ⟨true, StoreGet.found rActiveW, Except.ok none, false, none, false, RemoveOutcome.removed⟩

def envIdem2 : Env :=
  ⟨true, StoreGet.found { rActiveW with status := some ⟨true, []⟩ }, Except.ok none, false,
    none, false, RemoveOutcome.removed⟩

theorem reconcile_idempotent_second_pass_witness :
    HasFinalizer rActiveW = true ∧ rActiveW.deletionRequested = false ∧
    rActiveW.eaResult = Except.ok "deny" ∧
    ((Reconcile envIdem1 [] none).inst = some { rActiveW with status := some ⟨true, []⟩ } ∧
      (Reconcile envIdem2 (Reconcile envIdem1 [] none).cache
        (Reconcile envIdem1 [] none).engine).fx.engineAdds = 0 ∧
      Reconcile envIdem2 (Reconcile envIdem1 [] none).cache (Reconcile envIdem1 [] none).engine =
        { result := ⟨false, none⟩,
          inst := (Reconcile envIdem1 [] none).inst,
          cache := (Reconcile envIdem1 [] none).cache,
          engine := (Reconcile envIdem1 [] none).engine,
          fx := ⟨1, 0, 0, 0, 1, true⟩ }) :=
  ⟨by decide, rfl, rfl,
    reconcile_idempotent_second_pass rActiveW [] none "deny" envIdem1 envIdem2
      (by decide) rfl rfl rfl rfl⟩
